import Mathlib

/-!
Shallow embedding of the decorator-driven agent framework core
(`src/unnamed/part_000`, `src/interfaces.ts`) and of the example
`createFile` operations (`src/codebase.ts`).

Classes (JS constructor functions) are modelled by `Nat` identities;
Zod schema handles are opaque `Nat` values; JS exceptions are modelled
by `Except String`; `await` over an already-sequential chain is the
identity on values.
-/

/-- Tool metadata registered by the `@Tool` decorator:
`{ propertyKey, name, description, parameters }` (part_000 line 11). -/
structure ToolMeta where
  propertyKey : String
  name : String
  descr : String
  parameters : Nat
deriving DecidableEq, Repr

/-- The process-wide `toolRegistry : Map<Function, ToolMeta[]>` (part_000 line 13),
as an association list keyed by class identity. -/
abbrev Registry := List (Nat × List ToolMeta)

/-- `toolRegistry.get(current) || []` (part_000 line 115). -/
def lookupReg (reg : Registry) (c : Nat) : List ToolMeta :=
  match reg.find? (fun p => p.1 == c) with
  | some p => p.2
  | none => []

/-- A registry read, threading the registry state through explicitly so that
absence of mutation is visible in the type: `Map.get` returns the registry
unchanged. -/
def registryGet (reg : Registry) (c : Nat) : List ToolMeta × Registry :=
  (lookupReg reg c, reg)

/-- The inner `for (const tool of tools)` loop of
`collectToolsFromPrototypeChain` (part_000 lines 116-121): skip a tool whose
name is already in `seen`, otherwise add the name to `seen` and push the tool
onto the accumulator. -/
def addTools : List ToolMeta → List String → List ToolMeta → List String × List ToolMeta
  | [], seen, acc => (seen, acc)
  | t :: rest, seen, acc =>
    if t.name ∈ seen then addTools rest seen acc
    else addTools rest (t.name :: seen) (acc ++ [t])

/-- The outer `while (current && current !== Function.prototype)` loop of
`collectToolsFromPrototypeChain` (part_000 lines 113-123): the prototype chain
is given as the list of class identities from the instance's own class upward.
The registry is threaded as state to record that the walk only reads it. -/
def collectGo : Registry → List Nat → List String → List ToolMeta → List ToolMeta × Registry
  | reg, [], _, acc => (acc, reg)
  | reg, c :: rest, seen, acc =>
    let pr := registryGet reg c
    let sa := addTools pr.1 seen acc
    collectGo pr.2 rest sa.1 sa.2

/-- `collectToolsFromPrototypeChain` (part_000 lines 109-126): start with an
empty accumulator and an empty `seen` set and walk the chain. -/
def collectToolsFromPrototypeChain (reg : Registry) (chain : List Nat) :
    List ToolMeta × Registry :=
  collectGo reg chain [] []

/-- Spec-side description of the `seen` set after processing one class's
tool list. -/
def specSeen : List ToolMeta → List String → List String
  | [], seen => seen
  | t :: rest, seen =>
    if t.name ∈ seen then specSeen rest seen
    else specSeen rest (t.name :: seen)

/-- Spec-side description of the collection result: keep the first occurrence
of every external name not already seen ("first occurrence wins", spec section 3). -/
def dedupeFirst : List ToolMeta → List String → List ToolMeta
  | [], _ => []
  | t :: rest, seen =>
    if t.name ∈ seen then dedupeFirst rest seen
    else t :: dedupeFirst rest (t.name :: seen)

/-- The concatenation of the registered tool lists of every class on the
chain, in traversal order (subclass first). -/
def flatTools (reg : Registry) : List Nat → List ToolMeta
  | [] => []
  | c :: rest => lookupReg reg c ++ flatTools reg rest

theorem addTools_spec (ts : List ToolMeta) : ∀ seen acc,
    addTools ts seen acc = (specSeen ts seen, acc ++ dedupeFirst ts seen) := by
  induction ts with
  | nil => intro seen acc; simp [addTools, specSeen, dedupeFirst]
  | cons t rest ih =>
    intro seen acc
    by_cases h : t.name ∈ seen
    · simp [addTools, specSeen, dedupeFirst, h, ih]
    · simp [addTools, specSeen, dedupeFirst, h, ih]

theorem dedupeFirst_append (l1 : List ToolMeta) : ∀ (l2 : List ToolMeta) seen,
    dedupeFirst (l1 ++ l2) seen
      = dedupeFirst l1 seen ++ dedupeFirst l2 (specSeen l1 seen) := by
  induction l1 with
  | nil => intro l2 seen; simp [dedupeFirst, specSeen]
  | cons t rest ih =>
    intro l2 seen
    by_cases h : t.name ∈ seen
    · simp [dedupeFirst, specSeen, h, ih]
    · simp [dedupeFirst, specSeen, h, ih]

theorem collectGo_spec (chain : List Nat) : ∀ (reg : Registry) seen acc,
    collectGo reg chain seen acc
      = (acc ++ dedupeFirst (flatTools reg chain) seen, reg) := by
  induction chain with
  | nil => intro reg seen acc; simp [collectGo, flatTools, dedupeFirst]
  | cons c rest ih =>
    intro reg seen acc
    simp [collectGo, registryGet, addTools_spec, flatTools, dedupeFirst_append, ih]

theorem collect_eq (reg : Registry) (chain : List Nat) :
    collectToolsFromPrototypeChain reg chain
      = (dedupeFirst (flatTools reg chain) [], reg) := by
  simp [collectToolsFromPrototypeChain, collectGo_spec]

theorem dedupeFirst_names (l : List ToolMeta) : ∀ seen,
    ((dedupeFirst l seen).map ToolMeta.name).Nodup
      ∧ ∀ t ∈ dedupeFirst l seen, t.name ∉ seen := by
  induction l with
  | nil => intro seen; simp [dedupeFirst]
  | cons t rest ih =>
    intro seen
    by_cases h : t.name ∈ seen
    · simpa [dedupeFirst, h] using ih seen
    · have ihs := ih (t.name :: seen)
      refine ⟨?_, ?_⟩
      · simp only [dedupeFirst, if_neg h, List.map_cons, List.nodup_cons]
        refine ⟨?_, ihs.1⟩
        intro hmem
        rcases List.mem_map.mp hmem with ⟨u, hu, hname⟩
        exact (ihs.2 u hu) (hname ▸ List.mem_cons_self _ _)
      · intro u hu
        simp only [dedupeFirst, if_neg h, List.mem_cons] at hu
        rcases hu with rfl | hu
        · exact h
        · exact fun hs => (ihs.2 u hu) (List.mem_cons_of_mem _ hs)

theorem dedupeFirst_filter (n : String) (l : List ToolMeta) : ∀ seen,
    (dedupeFirst l seen).filter (fun t => t.name == n)
      = if n ∈ seen then [] else (l.filter (fun t => t.name == n)).take 1 := by
  induction l with
  | nil => intro seen; simp [dedupeFirst]
  | cons t rest ih =>
    intro seen
    by_cases h : t.name ∈ seen
    · by_cases he : t.name = n
      · have hn : n ∈ seen := he ▸ h
        simp [dedupeFirst, h, he, ih, hn]
      · have hbeq : (t.name == n) = false := by
          simp [he]
        simp [dedupeFirst, h, ih, List.filter_cons, hbeq]
    · by_cases he : t.name = n
      · subst he
        have hm : t.name ∈ t.name :: seen := List.mem_cons_self _ _
        simp [dedupeFirst, h, List.filter_cons, ih, hm]
      · have hbeq : (t.name == n) = false := by
          simp [he]
        have hmem : (n ∈ t.name :: seen) ↔ (n ∈ seen) := by
          constructor
          · intro hh
            rcases List.mem_cons.mp hh with h1 | h2
            · exact absurd h1.symm he
            · exact h2
          · intro hh
            exact List.mem_cons_of_mem _ hh
        by_cases hs : n ∈ seen
        · simp [dedupeFirst, h, List.filter_cons, hbeq, ih, hmem, hs]
        · simp [dedupeFirst, h, List.filter_cons, hbeq, ih, hmem, hs]

/-- A JS method table (prototype own-properties): property key to method
identity. -/
abbrev MethodTable := List (String × Nat)

/-- Own-property lookup on one prototype. -/
def lookupKey (table : MethodTable) (key : String) : Option Nat :=
  match table.find? (fun p => p.1 == key) with
  | some p => some p.2
  | none => none

/-- JS property access `(this as any)[meta.propertyKey]` (part_000 line 76):
walks the instance's prototype chain and returns the first method found
under the key. -/
def resolveMethod : List MethodTable → String → Option Nat
  | [], _ => none
  | table :: rest, key =>
    match lookupKey table key with
    | some m => some m
    | none => resolveMethod rest key

/-- C1: when a class C declares a callable with the same external name as one
declared on an ancestor, the collected tool list for C contains exactly one
descriptor with that name, namely the one registered on C, and the built
operation dispatches to C's own method implementation. -/
theorem claim1_override_wins (reg : Registry) (cId : Nat) (rest : List Nat)
    (n : String) (d : ToolMeta) (cTable : MethodTable) (restTables : List MethodTable)
    (m : Nat)
    (hC : (lookupReg reg cId).filter (fun t => t.name == n) = [d])
    (_hA : ∃ aId ∈ rest, ∃ a ∈ lookupReg reg aId, a.name = n)
    (hm : lookupKey cTable d.propertyKey = some m) :
    (collectToolsFromPrototypeChain reg (cId :: rest)).1.filter (fun t => t.name == n) = [d]
      ∧ resolveMethod (cTable :: restTables) d.propertyKey = some m := by
  constructor
  · have h1 := collect_eq reg (cId :: rest)
    have h2 := dedupeFirst_filter n (flatTools reg (cId :: rest)) []
    rw [h1]
    simp only [flatTools] at h2 ⊢
    rw [h2]
    simp [List.filter_append, hC]
  · simp [resolveMethod, hm]

/-- C8: collecting tools from the prototype chain leaves the registry
unchanged, and a second run over the resulting registry returns the same
list (two-run determinism for a fixed registry and chain). -/
theorem claim8_pure_deterministic (reg : Registry) (chain : List Nat) :
    (collectToolsFromPrototypeChain reg chain).2 = reg
      ∧ (collectToolsFromPrototypeChain
            ((collectToolsFromPrototypeChain reg chain).2) chain).1
          = (collectToolsFromPrototypeChain reg chain).1 := by
  rw [collect_eq reg chain]
  refine ⟨rfl, ?_⟩
  rw [collect_eq]

/-- C9: the collected tool list has pairwise-distinct external names, and for
every name only the first-registered descriptor along the chain appears. -/
theorem claim9_no_duplicate_names (reg : Registry) (chain : List Nat) (n : String) :
    (((collectToolsFromPrototypeChain reg chain).1.map ToolMeta.name).Nodup)
      ∧ (collectToolsFromPrototypeChain reg chain).1.filter (fun t => t.name == n)
          = ((flatTools reg chain).filter (fun t => t.name == n)).take 1 := by
  rw [collect_eq]
  exact ⟨(dedupeFirst_names (flatTools reg chain) []).1,
    by rw [dedupeFirst_filter]; simp⟩

/-- A hook function `(data: any) => any | Promise<any>` (part_000 line 10):
a unary transform that may throw, with the thrown value modelled as a
`String` message. -/
abbrev Hook (α : Type) := α → Except String α

/-- The per-method hook store entry: the `beforeHooks` and `afterHooks`
lists associated with one method implementation
(part_000 lines 16-17). -/
structure MethodChains (α : Type) where
  before : List (Hook α)
  after : List (Hook α)

/-- The `@Before` decorator body (part_000 lines 35-43): read the existing
before-list for the method (empty if absent), push `fn` at the end, store
it back. -/
def Before {α : Type} (fn : Hook α) (c : MethodChains α) : MethodChains α :=
  MethodChains.mk (c.before ++ [fn]) c.after

/-- The `@After` decorator body (part_000 lines 46-54): push `fn` at the
end of the method's after-list. -/
def After {α : Type} (fn : Hook α) (c : MethodChains α) : MethodChains α :=
  MethodChains.mk c.before (c.after ++ [fn])

/-- TypeScript decorator application: a stack of decorators written
textually top-to-bottom `[d1, ..., dk]` above a method is applied
bottom-up, `d1 (d2 (... dk (initial)))`, the decorator nearest the method
first. -/
def applyDecoratorStack {α : Type} :
    List (MethodChains α → MethodChains α) → MethodChains α → MethodChains α
  | [], c => c
  | d :: rest, c => d (applyDecoratorStack rest c)

/-- The `for (const fn of fns) processed = await fn(processed)` loop of the
tool closure (part_000 lines 84-86 and 93-95): thread the value through the
hooks in list order; a throw aborts the loop and propagates. -/
def runChain {α : Type} : List (Hook α) → α → Except String α
  | [], x => .ok x
  | f :: rest, x =>
    match f x with
    | .error e => .error e
    | .ok y => runChain rest y

/-- The async closure built by `buildTools` for one tool
(part_000 lines 81-98, and the task branch of `src/interfaces.ts`
lines 105-122): run the before-hooks on the input, call the method with the
entity as receiver on the processed value, run the after-hooks on the
result; any throw propagates out of the closure. -/
def toolExecute {ε α : Type} (ent : ε) (beforeFns : List (Hook α))
    (method : ε → α → Except String α) (afterFns : List (Hook α))
    (input : α) : Except String α :=
  match runChain beforeFns input with
  | .error e => .error e
  | .ok processed =>
    match method ent processed with
    | .error e => .error e
    | .ok result => runChain afterFns result

/-- Spec-side nested application, head outermost: `specApply [bn, ..., b1] x`
is `bn(...b1(x))`. -/
def specApply {α : Type} : List (Hook α) → α → Except String α
  | [], x => .ok x
  | f :: rest, x =>
    match specApply rest x with
    | .error e => .error e
    | .ok y => f y

/-- Spec-side composition in the spec's words: for a chain `[b1, ..., bn]`
in stored order, produce `bn(...b1(x))` (first-stored innermost). -/
def specCompose {α : Type} (fns : List (Hook α)) (x : α) : Except String α :=
  specApply fns.reverse x

theorem runChain_append {α : Type} (l1 : List (Hook α)) : ∀ (l2 : List (Hook α)) x,
    runChain (l1 ++ l2) x
      = match runChain l1 x with
        | .error e => .error e
        | .ok y => runChain l2 y := by
  induction l1 with
  | nil => intro l2 x; rfl
  | cons f rest ih =>
    intro l2 x
    simp only [List.cons_append, runChain]
    cases f x with
    | error e => rfl
    | ok y => exact ih l2 y

theorem specApply_concat {α : Type} (l : List (Hook α)) : ∀ (f : Hook α) x,
    specApply (l ++ [f]) x
      = match f x with
        | .error e => .error e
        | .ok y => specApply l y := by
  induction l with
  | nil =>
    intro f x
    simp only [List.nil_append, specApply]
    cases f x with
    | error e => rfl
    | ok y => rfl
  | cons g rest ih =>
    intro f x
    have h1 : specApply ((g :: rest) ++ [f]) x
        = match specApply (rest ++ [f]) x with
          | .error e => .error e
          | .ok y => g y := rfl
    rw [h1, ih]
    cases f x with
    | error e => rfl
    | ok y => rfl

theorem runChain_eq_specCompose {α : Type} (l : List (Hook α)) : ∀ x,
    runChain l x = specCompose l x := by
  induction l with
  | nil => intro x; rfl
  | cons f rest ih =>
    intro x
    simp only [runChain, specCompose, List.reverse_cons, specApply_concat]
    cases f x with
    | error e => rfl
    | ok y => exact ih y

/-- C3: the built operation threads the stored chains sequentially: it equals
applying the before-chain as the nested composition `bn(...b1(x))`, invoking
the method with the entity as receiver on that value, then applying the
after-chain as `am(...a1(r))` to the method's result. -/
theorem claim3_chain_threading {ε α : Type} (ent : ε) (bs : List (Hook α))
    (method : ε → α → Except String α) (as_ : List (Hook α)) (x : α) :
    toolExecute ent bs method as_ x
      = match specCompose bs x with
        | .error e => .error e
        | .ok v =>
          match method ent v with
          | .error e => .error e
          | .ok r => specCompose as_ r := by
  simp only [toolExecute, runChain_eq_specCompose]

/-- C4: if a before-transform fails on its input, the remaining
before-transforms do not run and the underlying method is never invoked —
the operation fails with that transform's error whatever the rest of the
chain and the method are. -/
theorem claim4_before_failure_aborts {ε α : Type} (bs1 : List (Hook α))
    (f : Hook α) (x v : α) (e : String)
    (h1 : runChain bs1 x = .ok v) (h2 : f v = .error e) :
    ∀ (ent : ε) (bs2 : List (Hook α)) (method : ε → α → Except String α)
      (as_ : List (Hook α)),
      toolExecute ent (bs1 ++ f :: bs2) method as_ x = .error e := by
  intro ent bs2 method as_
  have hchain : runChain (bs1 ++ f :: bs2) x = .error e := by
    rw [runChain_append, h1]
    simp only [runChain, h2]
  simp only [toolExecute, hchain]

/-- C5: if the underlying method fails, no after-transform is applied — the
operation fails with the method's own error whatever the after-chain is. -/
theorem claim5_method_failure_skips_after {ε α : Type} (ent : ε)
    (bs : List (Hook α)) (method : ε → α → Except String α) (x v : α) (e : String)
    (h1 : runChain bs x = .ok v) (h2 : method ent v = .error e) :
    ∀ as_ : List (Hook α), toolExecute ent bs method as_ x = .error e := by
  intro as_
  simp only [toolExecute, h1, h2]

/-- Scenario hook: appends a tag to the input's trace and succeeds
(a logging before-transform). -/
def logStep : Hook (Bool × List String) := fun p => .ok (p.1, p.2 ++ ["log"])

/-- Scenario hook: a validating before-transform; on invalid input
(first component `false`) it throws, with the trace accumulated so far
joined into the error message, so the failure records which earlier hooks
actually ran. -/
def validateStep : Hook (Bool × List String) := fun p =>
  if p.1 then .ok (p.1, p.2 ++ ["validate"]) else .error (String.join p.2)

theorem beforeStack {α : Type} (fns : List (Hook α)) : ∀ c : MethodChains α,
    (applyDecoratorStack (fns.map Before) c).before = c.before ++ fns.reverse := by
  induction fns with
  | nil => intro c; simp [applyDecoratorStack]
  | cons f rest ih =>
    intro c
    simp [applyDecoratorStack, Before, ih, List.append_assoc]

theorem afterStack {α : Type} (fns : List (Hook α)) : ∀ c : MethodChains α,
    (applyDecoratorStack (fns.map After) c).after = c.after ++ fns.reverse := by
  induction fns with
  | nil => intro c; simp [applyDecoratorStack]
  | cons f rest ih =>
    intro c
    simp [applyDecoratorStack, After, ih, List.append_assoc]

/-- C2 (counterexample): with two before-transforms written in source order
`[logStep, validateStep]` above one method, invoking on invalid input fails
in `validateStep` with an empty trace — `logStep` has not run — refuting
"runs logStep before validate fails". -/
theorem claim2_counterexample :
    runChain (applyDecoratorStack [Before logStep, Before validateStep]
        (MethodChains.mk [] [])).before (false, []) = Except.error ""
      ∧ ¬ runChain (applyDecoratorStack [Before logStep, Before validateStep]
            (MethodChains.mk [] [])).before (false, []) = Except.error "log" := by
  refine ⟨rfl, ?_⟩
  intro h
  rw [(rfl : runChain (applyDecoratorStack [Before logStep, Before validateStep]
      (MethodChains.mk [] [])).before (false, []) = Except.error "")] at h
  injection h with h2
  exact absurd h2 (by decide)

/-- C2 (amended): each `@Before` (respectively `@After`) application appends
its function to the method's stored chain, and TypeScript applies a textual
decorator stack bottom-up, so the stored chain — which is also the execution
order — is the reverse of the source declaration order. -/
theorem claim2_append_reverse_order {α : Type} (fns gns : List (Hook α))
    (c : MethodChains α) :
    (applyDecoratorStack (fns.map Before) c).before = c.before ++ fns.reverse
      ∧ (applyDecoratorStack (gns.map After) c).after = c.after ++ gns.reverse :=
  ⟨beforeStack fns c, afterStack gns c⟩

/-- Structured tool-call error classes of the spec's taxonomy that can occur
per invocation (spec section 7). -/
inductive ToolCallError where
  | schemaValidation (msg : String)
  | execution (msg : String)
deriving DecidableEq, Repr

/-- The structured result the invocation runtime receives from one tool
call: a success value or a recoverable failure, never an uncaught throw. -/
inductive ToolCallOutcome (α : Type) where
  | success (v : α)
  | failure (e : ToolCallError)
deriving DecidableEq, Repr

/-- Modelled from the spec: the external LLM-invocation runtime wrapper
(`tool(...)` from langchain, which is not part of this repository's sources)
around the closure built by `buildTools`. Per spec sections 4.3 (step 1),
6 and 7 it validates/coerces raw input against the declared schema before
the closure runs, surfaces a validation failure as a recoverable
SchemaValidationError tool-call error, and catches any error the closure
raises, handing a structured failed tool call back to the runtime instead
of letting it propagate. -/
def invokeOperation {ε ρ α : Type} (validate : ρ → Except String α) (ent : ε)
    (beforeFns : List (Hook α)) (method : ε → α → Except String α)
    (afterFns : List (Hook α)) (raw : ρ) : ToolCallOutcome α :=
  match validate raw with
  | .error msg => .failure (.schemaValidation msg)
  | .ok x =>
    match toolExecute ent beforeFns method afterFns x with
    | .error msg => .failure (.execution msg)
    | .ok v => .success v

/-- C6: raw input that fails schema validation never reaches any
before-transform or the underlying method — the outcome is a recoverable
SchemaValidationError tool-call failure, whatever the chains and the method
are. -/
theorem claim6_schema_failure_boundary {ε ρ α : Type}
    (validate : ρ → Except String α) (raw : ρ) (msg : String)
    (h : validate raw = .error msg) :
    ∀ (ent : ε) (bs : List (Hook α)) (method : ε → α → Except String α)
      (as_ : List (Hook α)),
      invokeOperation validate ent bs method as_ raw
        = .failure (.schemaValidation msg) := by
  intro ent bs method as_
  simp only [invokeOperation, h]

/-- C7: every per-invocation error — schema validation failure, or any error
raised while the wrapper closure runs (before-transform rejection or
underlying method fault) — is caught at the wrapper's execution entry point
and converted into a structured failure outcome; a success outcome occurs
exactly when the whole pipeline succeeds. -/
theorem claim7_errors_caught {ε ρ α : Type} (validate : ρ → Except String α)
    (ent : ε) (bs : List (Hook α)) (method : ε → α → Except String α)
    (as_ : List (Hook α)) (raw : ρ) :
    (∀ msg, validate raw = .error msg →
        invokeOperation validate ent bs method as_ raw
          = .failure (.schemaValidation msg))
      ∧ (∀ x msg, validate raw = .ok x →
          toolExecute ent bs method as_ x = .error msg →
            invokeOperation validate ent bs method as_ raw
              = .failure (.execution msg))
      ∧ (∀ x v, validate raw = .ok x →
          toolExecute ent bs method as_ x = .ok v →
            invokeOperation validate ent bs method as_ raw = .success v) := by
  refine ⟨?_, ?_, ?_⟩
  · intro msg h
    simp only [invokeOperation, h]
  · intro x msg h1 h2
    simp only [invokeOperation, h1, h2]
  · intro x v h1 h2
    simp only [invokeOperation, h1, h2]

/-- The state of one file agent as far as the codebase examples use it here:
its path and content (`src/codebase.ts`, `FileExtensionAgent` lines 31-41
and `FileAgent` lines 1114-1132; model reference, language detection,
summary and timestamps are external or derived state not touched by the
duplicate-create branch). -/
structure FileM where
  path : String
  content : String
deriving DecidableEq, Repr

/-- A JS `Map<string, FileAgent>` in insertion order, as an association
list. -/
abbrev FilesMap := List (String × FileM)

/-- `Map.has`. -/
def mapHas (files : FilesMap) (k : String) : Bool :=
  files.any (fun p => p.1 == k)

/-- `Map.set`: update in place when the key exists, append otherwise. -/
def mapSet (files : FilesMap) (k : String) (v : FileM) : FilesMap :=
  if mapHas files k then files.map (fun p => if p.1 == k then (k, v) else p)
  else files ++ [(k, v)]

/-- `content.split("\n").length`. -/
def lineCount (content : String) : Nat :=
  (content.splitOn "\n").length

/-- Result values of `OrganizerAgent.createFile` (`src/codebase.ts`
lines 199-208). -/
inductive OrgCreateResult where
  | fileExists (path : String)
  | created (path : String) (lines : Nat)
deriving DecidableEq, Repr

/-- `OrganizerAgent.createFile` (`src/codebase.ts` lines 199-208): if the
path is already in the files map, return the error object unchanged-state;
otherwise construct a file agent and set it. `content` defaults to the
empty string. -/
def organizerCreateFile (files : FilesMap) (path : String)
    (content : Option String) : OrgCreateResult × FilesMap :=
  let c := content.getD ""
  if mapHas files path then (.fileExists path, files)
  else (.created path (lineCount c), mapSet files path (FileM.mk path c))

/-- Result values of `DirectoryAgent.createFile` (`src/codebase.ts`
lines 914-932). -/
inductive DirCreateResult where
  | errorMsg (msg : String)
  | created (path : String) (file : FileM)
deriving DecidableEq, Repr

/-- `DirectoryAgent.createFile` (`src/codebase.ts` lines 914-932): if the
name is already in the files map, return the error object with the map
untouched; otherwise join the resolved directory path with the name
(`nodePath` is an external collaborator, so the resolved directory path is
a parameter), create the file agent and set it. The success payload carries
the new file's path and content standing for `file.describe()` (console
logging is external output and elided). -/
def directoryCreateFile (resolvedDirPath : String) (files : FilesMap)
    (name : String) (content : Option String) : DirCreateResult × FilesMap :=
  let c := content.getD ""
  if mapHas files name then
    (.errorMsg ("File already exists: " ++ name), files)
  else
    let filePath := resolvedDirPath ++ "/" ++ name
    (.created filePath (FileM.mk filePath c), mapSet files name (FileM.mk filePath c))

/-- C10: creating a file whose path (respectively name) is already present
returns an error value — no exception — and leaves the files map exactly as
it was, in both the OrganizerAgent and the DirectoryAgent variants. -/
theorem claim10_duplicate_create_noop (files dfiles : FilesMap)
    (p nm : String) (c1 c2 : Option String)
    (h1 : mapHas files p = true) (h2 : mapHas dfiles nm = true) :
    organizerCreateFile files p c1 = (.fileExists p, files)
      ∧ ∀ resolvedDirPath, directoryCreateFile resolvedDirPath dfiles nm c2
          = (.errorMsg ("File already exists: " ++ nm), dfiles) := by
  constructor
  · simp only [organizerCreateFile, h1, if_true]
  · intro rp
    simp only [directoryCreateFile, h2, if_true]

/-- Demo registry for the override scenario: class 1 (`Sub`) and class 2
(`Base`) both register external name "search" with different descriptors
and different method implementations. -/
def subSearchMeta : ToolMeta := ToolMeta.mk "search" "search" "sub search" 1

def baseSearchMeta : ToolMeta := ToolMeta.mk "search" "search" "base search" 2

def demoRegistry : Registry := [(1, [subSearchMeta]), (2, [baseSearchMeta])]

/-- Witness for C1 at the Scenario B instance: `Sub` (class 1) extends
`Base` (class 2), both declare "search"; the collected list keeps exactly
Sub's descriptor and dispatch resolves to Sub's method (10), not Base's (20). -/
theorem claim1_witness :
    (collectToolsFromPrototypeChain demoRegistry [1, 2]).1.filter
        (fun t => t.name == "search") = [subSearchMeta]
      ∧ resolveMethod [[("search", 10)], [("search", 20)]] "search" = some 10 :=
  claim1_override_wins demoRegistry 1 [2] "search" subSearchMeta
    [("search", 10)] [[("search", 20)]] 10 (by decide)
    ⟨2, by decide, baseSearchMeta, by decide, rfl⟩ (by decide)

/-- Scenario input shape: an object with an optional `query` field. -/
structure QueryInput where
  query : Option String
deriving DecidableEq, Repr

/-- Scenario C before-transform: throws on a missing `query` field. -/
def checkQuery : Hook QueryInput := fun q =>
  match q.query with
  | none => .error "missing query"
  | some _ => .ok q

/-- A trivial underlying method returning its processed input. -/
def echoMethod : Unit → QueryInput → Except String QueryInput :=
  fun _ q => .ok q

/-- An underlying method that always faults. -/
def faultyMethod : Unit → QueryInput → Except String QueryInput :=
  fun _ _ => .error "boom"

/-- Witness for C4 at Scenario C: invoking with a missing query fails in the
before-transform before the method runs, while a present query succeeds. -/
theorem claim4_witness :
    runChain ([] : List (Hook QueryInput)) (QueryInput.mk none)
        = .ok (QueryInput.mk none)
      ∧ checkQuery (QueryInput.mk none) = .error "missing query"
      ∧ toolExecute () ([] ++ checkQuery :: []) echoMethod []
          (QueryInput.mk none) = .error "missing query"
      ∧ toolExecute () [checkQuery] echoMethod []
          (QueryInput.mk (some "x")) = .ok (QueryInput.mk (some "x")) :=
  ⟨rfl, rfl,
    claim4_before_failure_aborts [] checkQuery (QueryInput.mk none)
      (QueryInput.mk none) "missing query" rfl rfl () [] echoMethod [],
    rfl⟩

/-- Witness for C5: a faulting method makes the operation fail with the
method's own error even though an after-transform is installed. -/
theorem claim5_witness :
    toolExecute () [] faultyMethod [fun q => Except.ok q]
        (QueryInput.mk (some "x")) = .error "boom" :=
  claim5_method_failure_skips_after () [] faultyMethod
    (QueryInput.mk (some "x")) (QueryInput.mk (some "x")) "boom" rfl rfl
    [fun q => Except.ok q]

/-- Demo schema collaborator: coerces an optional raw string into a
`QueryInput`, failing when it is absent. -/
def demoSchema : Option String → Except String QueryInput := fun r =>
  match r with
  | none => .error "query required"
  | some s => .ok (QueryInput.mk (some s))

/-- Witness for C6: raw input failing the schema yields the recoverable
SchemaValidationError outcome with the before-chain and method in place. -/
theorem claim6_witness :
    invokeOperation demoSchema () [checkQuery] echoMethod [] none
      = .failure (.schemaValidation "query required") :=
  claim6_schema_failure_boundary demoSchema none "query required" rfl
    () [checkQuery] echoMethod []

/-- Witness for C7 at a concrete faulting pipeline: the method's error is
caught and handed back as a structured execution failure. -/
theorem claim7_witness :
    invokeOperation demoSchema () [] faultyMethod [] (some "x")
      = .failure (.execution "boom") :=
  (claim7_errors_caught demoSchema () [] faultyMethod [] (some "x")).2.1
    (QueryInput.mk (some "x")) "boom" rfl rfl

/-- Witness for C10 at a concrete one-entry map: creating "a.ts" again is
rejected and both maps are returned unchanged. -/
theorem claim10_witness :
    organizerCreateFile [("a.ts", FileM.mk "a.ts" "x")] "a.ts" (some "y")
        = (.fileExists "a.ts", [("a.ts", FileM.mk "a.ts" "x")])
      ∧ directoryCreateFile "/root" [("a.ts", FileM.mk "/root/a.ts" "x")]
          "a.ts" none
        = (.errorMsg ("File already exists: " ++ "a.ts"),
            [("a.ts", FileM.mk "/root/a.ts" "x")]) :=
  ⟨(claim10_duplicate_create_noop [("a.ts", FileM.mk "a.ts" "x")]
      [("a.ts", FileM.mk "/root/a.ts" "x")] "a.ts" "a.ts" (some "y") none
      rfl rfl).1,
    (claim10_duplicate_create_noop [("a.ts", FileM.mk "a.ts" "x")]
      [("a.ts", FileM.mk "/root/a.ts" "x")] "a.ts" "a.ts" (some "y") none
      rfl rfl).2 "/root"⟩
